/-
  Verification development for the discovery-desktop document pipeline.

  Shallow embedding of:
  - src/lib/processing/document-pipeline.ts (chunkText, hashContent,
    generateAndStoreEmbeddings, fetchEmbeddingBatch, extractTextViaOCR,
    processDocument, checkLimitsOrThrow)
  - src/lib/processing/theme-extractor.ts (parseThemeResponse)
  - src/lib/storage/discovery-db.ts (createChunks, createEmbeddings,
    createProcessingJob, updateProcessingJob as store operations)
  - the useShouldAnalyzeThemes / useThemes staleness check.

  Texts are modelled as List Char.  JavaScript numbers that are used as
  integers (offsets, counters) are modelled as Nat/Int with the negative
  cases analysed where JS can go negative; the single floating-point
  computation (theme-refresh growth rate) is modelled over ℚ.
  External collaborators (usage gate, OCR service, embedding service,
  record store) are parameters of the model, as in the spec's section 6.
-/
import Mathlib

set_option maxHeartbeats 1000000
set_option linter.unusedVariables false
set_option maxRecDepth 20000

namespace Discovery

/-! ### JavaScript string primitives used by the pipeline -/

/-- The whitespace class of JavaScript `String.prototype.trim`
    (common members; exotic unicode spaces are not used by the pipeline). -/
def isJsWhitespace (c : Char) : Bool :=
  c = ' ' || c = '\t' || c = '\n' || c = '\r' || c = '\x0b' || c = '\x0c'

/-- `s.trim()`. -/
def jsTrim (s : List Char) : List Char :=
  ((s.dropWhile isJsWhitespace).reverse.dropWhile isJsWhitespace).reverse

/-- Left-to-right scan remembering the index of the last occurrence seen. -/
def lastIndexAux (c : Char) : List Char → Nat → Int → Int
  | [], _, acc => acc
  | x :: xs, i, acc => lastIndexAux c xs (i + 1) (if x = c then (i : Int) else acc)

/-- `s.lastIndexOf(c, fromIdx)`: the largest index `i ≤ fromIdx` with
    `s[i] = c`, or `-1` when there is none — computed as the last match in
    the first `fromIdx + 1` characters. -/
def jsLastIndexOf (s : List Char) (c : Char) (fromIdx : Nat) : Int :=
  lastIndexAux c (s.take (fromIdx + 1)) 0 (-1)

theorem lastIndexAux_bounds (c : Char) :
    ∀ (l : List Char) (i : Nat) (acc : Int),
      lastIndexAux c l i acc = acc ∨
        ((i : Int) ≤ lastIndexAux c l i acc ∧
          lastIndexAux c l i acc < (i : Int) + l.length)
  | [], i, acc => Or.inl rfl
  | x :: xs, i, acc => by
      rw [lastIndexAux]
      rcases lastIndexAux_bounds c xs (i + 1) (if x = c then (i : Int) else acc)
        with h | h
      · rw [h]
        by_cases hx : x = c
        · rw [if_pos hx]
          right
          refine ⟨le_refl _, ?_⟩
          simp only [List.length_cons]
          push_cast
          omega
        · rw [if_neg hx]
          exact Or.inl rfl
      · right
        simp only [List.length_cons] at h ⊢
        push_cast at h ⊢
        omega

theorem jsLastIndexOf_lt_length (s : List Char) (c : Char) (fromIdx : Nat) :
    jsLastIndexOf s c fromIdx < (s.length : Int) ∧
    jsLastIndexOf s c fromIdx ≤ (fromIdx : Int) := by
  unfold jsLastIndexOf
  have hlen : (s.take (fromIdx + 1)).length = min (fromIdx + 1) s.length :=
    List.length_take (fromIdx + 1) s
  rcases lastIndexAux_bounds c (s.take (fromIdx + 1)) 0 (-1) with h | h
  · rw [h]
    constructor <;> omega
  · rw [hlen] at h
    constructor <;> omega

/-! ### Chunker (src/lib/processing/document-pipeline.ts, chunkText) -/

def CHUNK_SIZE : Nat := 1000
def CHUNK_OVERLAP : Nat := 200
def EMBEDDING_BATCH_SIZE : Nat := 50
def PARALLEL_EMBEDDING_REQUESTS : Nat := 3
def OCR_POLL_INTERVAL : Nat := 2000
def OCR_MAX_WAIT : Nat := 300000
def MAX_STUCK_POLLS : Nat := 30

structure TextChunk where
  content : List Char
  startOffset : Nat
  endOffset : Nat
  deriving DecidableEq, Repr

/-- `Math.min(start + CHUNK_SIZE, text.length)`: the raw window boundary. -/
def rawEnd (t : List Char) (start : Nat) : Nat :=
  min (start + CHUNK_SIZE) t.length

/-- `Math.max(text.lastIndexOf(".", end), text.lastIndexOf("\n", end))`. -/
def breakPoint (t : List Char) (start : Nat) : Int :=
  max (jsLastIndexOf t '.' (rawEnd t start)) (jsLastIndexOf t '\n' (rawEnd t start))

/-- The chunk end actually used: the raw boundary, snapped back to just past
    the nearest sentence break when `breakPoint > start + CHUNK_SIZE / 2`. -/
def windowEnd (t : List Char) (start : Nat) : Nat :=
  if rawEnd t start < t.length then
    if breakPoint t start > (start : Int) + (CHUNK_SIZE / 2 : Nat) then
      (breakPoint t start).toNat + 1
    else rawEnd t start
  else rawEnd t start

/-- `start = end - CHUNK_OVERLAP; if (start <= prevStart) start = end`.
    In JS `end - CHUNK_OVERLAP` may be negative; then the guard
    `start <= prevStart` is certainly true, exactly as with the
    truncated Nat subtraction used here. -/
def nextStart (t : List Char) (start : Nat) : Nat :=
  let e := windowEnd t start
  if e - CHUNK_OVERLAP ≤ start then e else e - CHUNK_OVERLAP

theorem windowEnd_gt (t : List Char) (start : Nat) (h : start < t.length) :
    start < windowEnd t start := by
  unfold windowEnd
  have h1 : start < rawEnd t start := by
    unfold rawEnd CHUNK_SIZE; omega
  split
  · split
    · rename_i hbp
      have : ((CHUNK_SIZE / 2 : Nat) : Int) = 500 := by decide
      omega
    · exact h1
  · exact h1

theorem windowEnd_le (t : List Char) (start : Nat) :
    windowEnd t start ≤ t.length := by
  unfold windowEnd
  have h1 : rawEnd t start ≤ t.length := by unfold rawEnd; omega
  split
  · split
    · rename_i hlt hbp
      have h2 := jsLastIndexOf_lt_length t '.' (rawEnd t start)
      have h3 := jsLastIndexOf_lt_length t '\n' (rawEnd t start)
      unfold breakPoint at hbp ⊢
      omega
    · exact h1
  · exact h1

theorem nextStart_gt (t : List Char) (start : Nat) (h : start < t.length) :
    start < nextStart t start := by
  unfold nextStart
  have := windowEnd_gt t start h
  dsimp only
  split <;> omega

/-- The chunking loop of `chunkText`, starting at offset `start`.
    `text.slice(start, end)` is `(t.drop start).take (end - start)`.
    The loop is written with a structural fuel argument so that it reduces
    inside the kernel; since each iteration strictly increases `start`
    (see `nextStart_gt`), fuel `t.length - start` always suffices, and when
    fuel runs out `start ≥ t.length` holds so `[]` is the faithful answer. -/
def chunkTextLoop (t : List Char) : Nat → Nat → List TextChunk
  | 0, _ => []
  | fuel + 1, start =>
    if start < t.length then
      { content := jsTrim ((t.drop start).take (windowEnd t start - start)),
        startOffset := start, endOffset := windowEnd t start }
        :: chunkTextLoop t fuel (nextStart t start)
    else []

def chunkTextCore (t : List Char) (start : Nat) : List TextChunk :=
  chunkTextLoop t (t.length - start) start

/-- `chunkText(text)`: run the loop, then drop whitespace-only chunks. -/
def chunkText (t : List Char) : List TextChunk :=
  (chunkTextCore t 0).filter (fun c => c.content.length > 0)

theorem chunkTextLoop_bounds (t : List Char) :
    ∀ (fuel start : Nat), ∀ c ∈ chunkTextLoop t fuel start,
      c.startOffset < c.endOffset ∧ c.endOffset ≤ t.length := by
  intro fuel
  induction fuel with
  | zero => intro start c hc; simp [chunkTextLoop] at hc
  | succ n ih =>
      intro start c hc
      rw [chunkTextLoop] at hc
      split at hc
      · rename_i h
        rcases List.mem_cons.mp hc with h1 | h2
        · subst h1
          exact ⟨windowEnd_gt t start h, windowEnd_le t start⟩
        · exact ih (nextStart t start) c h2
      · simp at hc

theorem chunkTextCore_bounds (t : List Char) (start : Nat) :
    ∀ c ∈ chunkTextCore t start, c.startOffset < c.endOffset ∧ c.endOffset ≤ t.length :=
  chunkTextLoop_bounds t (t.length - start) start

theorem chunkTextLoop_length_le (t : List Char) :
    ∀ (fuel start : Nat), (chunkTextLoop t fuel start).length ≤ t.length - start := by
  intro fuel
  induction fuel with
  | zero => intro start; simp [chunkTextLoop]
  | succ n ih =>
      intro start
      rw [chunkTextLoop]
      split
      · rename_i h
        have h2 := nextStart_gt t start h
        have h3 := ih (nextStart t start)
        simp only [List.length_cons]
        omega
      · simp

theorem chunkTextCore_length_le (t : List Char) (start : Nat) :
    (chunkTextCore t start).length ≤ t.length - start :=
  chunkTextLoop_length_le t (t.length - start) start

theorem chunkTextLoop_endOffset (t : List Char) :
    ∀ (fuel start : Nat), ∀ c ∈ chunkTextLoop t fuel start,
      c.endOffset = windowEnd t c.startOffset := by
  intro fuel
  induction fuel with
  | zero => intro start c hc; simp [chunkTextLoop] at hc
  | succ n ih =>
      intro start c hc
      rw [chunkTextLoop] at hc
      split at hc
      · rcases List.mem_cons.mp hc with h1 | h2
        · subst h1; rfl
        · exact ih (nextStart t start) c h2
      · simp at hc

/-! ### Chunk records created by processDocument (chunkIndex sequence) -/

/-- `ToInt32` wrap-around of JavaScript bitwise operations. -/
def toInt32 (x : Int) : Int := ((x + 2 ^ 31) % 2 ^ 32) - 2 ^ 31

/-- One step of `hashContent`:
    `hash = ((hash << 5) - hash) + char; hash = hash & hash`. -/
def hashStep (h : Int) (c : Char) : Int :=
  toInt32 ((toInt32 (h * 32) - h) + (c.toNat : Int))

/-- `hashContent(content)` (the int32 value; the JS code renders it in hex). -/
def hashContent (content : List Char) : Int := content.foldl hashStep 0

/-- `array.map((x, index) => f(index, x))` starting from index `i`. -/
def mapIdxFrom (i : Nat) (f : Nat → α → β) : List α → List β
  | [] => []
  | a :: as => f i a :: mapIdxFrom (i + 1) f as

/-- The chunk records built in `processDocument` stage 2
    (`textChunks.map((chunk, index) => ({ ..., chunkIndex: index, ... }))`);
    the constant `documentId`/`caseId` fields are omitted. -/
structure ChunkRecord where
  chunkIndex : Nat
  content : List Char
  contentHash : Int
  startOffset : Nat
  endOffset : Nat
  deriving DecidableEq, Repr

def chunkRecords (t : List Char) : List ChunkRecord :=
  mapIdxFrom 0
    (fun index c =>
      { chunkIndex := index, content := c.content,
        contentHash := hashContent c.content,
        startOffset := c.startOffset, endOffset := c.endOffset })
    (chunkText t)

theorem mapIdxFrom_map_chunkIndex (f : Nat → TextChunk → ChunkRecord)
    (hf : ∀ i c, (f i c).chunkIndex = i) :
    ∀ (l : List TextChunk) (i : Nat),
      (mapIdxFrom i f l).map (fun r => r.chunkIndex) = List.range' i l.length
  | [], i => by simp [mapIdxFrom]
  | a :: as, i => by
      simp only [mapIdxFrom, List.map_cons, List.length_cons, List.range'_succ, hf]
      rw [mapIdxFrom_map_chunkIndex f hf as (i + 1)]

theorem mapIdxFrom_length (f : Nat → α → β) :
    ∀ (l : List α) (i : Nat), (mapIdxFrom i f l).length = l.length
  | [], _ => rfl
  | a :: as, i => by
      simp only [mapIdxFrom, List.length_cons]
      rw [mapIdxFrom_length f as (i + 1)]

/-- C1: every chunk produced by `chunkText` satisfies
    `startOffset < endOffset ≤ length text`, and the chunk records created by
    `processDocument` carry `chunkIndex` values contiguous from `0` to `n-1`
    in order. -/
theorem chunk_offsets_valid_and_indices_contiguous
    (t : List Char) (c : TextChunk) (hc : c ∈ chunkText t) :
    (c.startOffset < c.endOffset ∧ c.endOffset ≤ t.length) ∧
    (chunkRecords t).map (fun r => r.chunkIndex) = List.range (chunkRecords t).length := by
  refine ⟨chunkTextCore_bounds t 0 c (List.mem_of_mem_filter hc), ?_⟩
  unfold chunkRecords
  rw [mapIdxFrom_map_chunkIndex _ (fun i c => rfl), mapIdxFrom_length,
    List.range_eq_range']

/-- Witness for C1 at a concrete input. -/
theorem chunk_offsets_valid_and_indices_contiguous_witness :
    (⟨['a', 'b', 'c'], 0, 3⟩ : TextChunk) ∈ chunkText ['a', 'b', 'c'] ∧
    (((⟨['a', 'b', 'c'], 0, 3⟩ : TextChunk).startOffset
        < (⟨['a', 'b', 'c'], 0, 3⟩ : TextChunk).endOffset ∧
      (⟨['a', 'b', 'c'], 0, 3⟩ : TextChunk).endOffset
        ≤ (['a', 'b', 'c'] : List Char).length) ∧
      (chunkRecords ['a', 'b', 'c']).map (fun r => r.chunkIndex)
        = List.range (chunkRecords ['a', 'b', 'c']).length) :=
  ⟨by decide,
   chunk_offsets_valid_and_indices_contiguous ['a', 'b', 'c'] ⟨['a', 'b', 'c'], 0, 3⟩
     (by decide)⟩

/-- C4: the loop makes strict forward progress — the next window start is
    strictly greater than the current one — and consequently `chunkText`
    terminates, emitting at most `length t - start` further chunks. -/
theorem chunkText_progress_terminates (t : List Char) (start : Nat)
    (h : start < t.length) :
    start < nextStart t start ∧
    (chunkTextCore t start).length ≤ t.length - start :=
  ⟨nextStart_gt t start h, chunkTextCore_length_le t start⟩

/-- Witness for C4 at a concrete input. -/
theorem chunkText_progress_terminates_witness :
    (0 < (['a', 'b', 'c'] : List Char).length) ∧
    (0 < nextStart ['a', 'b', 'c'] 0 ∧
      (chunkTextCore ['a', 'b', 'c'] 0).length ≤ (['a', 'b', 'c'] : List Char).length - 0) :=
  ⟨by decide, chunkText_progress_terminates ['a', 'b', 'c'] 0 (by decide)⟩

/-! ### C5: the sentence-snap boundary rule -/

/-- Modelled from the spec's words, for comparison with the code: snap the
    boundary when the break point is *no closer than* half the chunk size to
    the window start (`breakPoint ≥ start + CHUNK_SIZE / 2`). -/
def specSnapEnd (t : List Char) (start : Nat) : Nat :=
  if rawEnd t start < t.length then
    if breakPoint t start ≥ (start : Int) + (CHUNK_SIZE / 2 : Nat) then
      (breakPoint t start).toNat + 1
    else rawEnd t start
  else rawEnd t start

/-- A 1001-character text whose only sentence break sits exactly half a chunk
    size past the window start of the first window. -/
def exText : List Char := List.replicate 500 'a' ++ '.' :: List.replicate 500 'a'

/-- C5 counterexample: on `exText`, the break point of the first window is at
    distance exactly 500 from the window start, so under the claim's
    "no closer than half the chunk size" rule the first chunk would end at
    501, but `chunkText` keeps the raw boundary 1000. -/
theorem chunk_sentence_snap_cex :
    breakPoint exText 0 = 500 ∧
    specSnapEnd exText 0 = 501 ∧
    (chunkText exText).head?.map TextChunk.endOffset = some 1000 := by
  refine ⟨by decide, by decide, ?_⟩
  rfl

/-- C5 (amended): for every chunk of `chunkText` whose raw window boundary is
    not at end-of-text, the chunk end snaps to just past the backward-nearest
    period/newline exactly when that break point is *strictly farther* than
    half the chunk size (500) from the window start; otherwise the raw
    boundary is kept. -/
theorem chunk_sentence_snap (t : List Char) (c : TextChunk) (hc : c ∈ chunkText t)
    (hraw : rawEnd t c.startOffset < t.length) :
    c.endOffset =
      if breakPoint t c.startOffset > (c.startOffset : Int) + (CHUNK_SIZE / 2 : Nat) then
        (breakPoint t c.startOffset).toNat + 1
      else rawEnd t c.startOffset := by
  have he := chunkTextLoop_endOffset t (t.length - 0) 0 c (List.mem_of_mem_filter hc)
  rw [he, windowEnd, if_pos hraw]

/-- Witness for C5: the first chunk of `exText` keeps the raw boundary 1000
    because the break point is not strictly beyond `start + 500`. -/
theorem chunk_sentence_snap_witness :
    ((⟨List.replicate 500 'a' ++ '.' :: List.replicate 499 'a', 0, 1000⟩ : TextChunk)
        ∈ chunkText exText ∧
      rawEnd exText 0 < exText.length) ∧
    (⟨List.replicate 500 'a' ++ '.' :: List.replicate 499 'a', 0, 1000⟩ : TextChunk).endOffset =
      if breakPoint exText 0 > ((0 : Nat) : Int) + (CHUNK_SIZE / 2 : Nat) then
        (breakPoint exText 0).toNat + 1
      else rawEnd exText 0 :=
  ⟨⟨by decide, by decide⟩,
   chunk_sentence_snap exText
     ⟨List.replicate 500 'a' ++ '.' :: List.replicate 499 'a', 0, 1000⟩
     (by decide) (by decide)⟩

/-! ### Embedding batch orchestrator
    (document-pipeline.ts: checkLimitsOrThrow, fetchEmbeddingBatch,
     generateAndStoreEmbeddings; discovery-db.ts: createEmbeddings). -/

/-- Result of the usage gate `checkUsageLimits()` (external collaborator). -/
structure UsageGate where
  allowed : Bool
  reason : Option String
  deriving DecidableEq, Repr

/-- The pipeline error taxonomy: `DemoLimitExceededError` plus the generic
    `Error`s thrown at each stage, distinguished by their message site. -/
inductive PipeErr where
  | demoLimit (reason : String)
  | docxFail (msg : String)
  | ocrSubmitFail (msg : String)
  | ocrFailed (msg : String)
  | ocrStuck
  | ocrTimeout
  | embedFail (msg : String)
  deriving DecidableEq, Repr

/-- `checkLimitsOrThrow()`. -/
def checkLimitsOrThrow (g : UsageGate) : Except PipeErr Unit :=
  if g.allowed then .ok () else .error (.demoLimit (g.reason.getD "limit_exceeded"))

/-- A chunk row as returned by `createChunks` (UUIDs abstracted to `Nat`). -/
structure DChunk where
  id : Nat
  documentId : Nat
  caseId : Nat
  content : List Char
  deriving DecidableEq, Repr

/-- An embedding row as passed to `createEmbeddings`. -/
structure EmbRecord where
  chunkId : Nat
  documentId : Nat
  caseId : Nat
  embedding : List Int
  deriving DecidableEq, Repr

/-- The embedding-stage environment: the usage gate and the
    `/api/embeddings/generate` service (external collaborators). -/
structure EmbEnv where
  gate : UsageGate
  svc : List (List Char) → Except String (List (List Int))

/-- `fetchEmbeddingBatch(batch)`: gate check, then one embedding request. -/
def fetchEmbeddingBatch (env : EmbEnv) (batch : List DChunk) :
    Except PipeErr (List DChunk × List (List Int)) :=
  match checkLimitsOrThrow env.gate with
  | .error e => .error e
  | .ok _ =>
    match env.svc (batch.map (fun c => c.content)) with
    | .error msg => .error (.embedFail msg)
    | .ok embs => .ok (batch, embs)

/-- `for (i = 0; i < l.length; i += n) out.push(l.slice(i, i + n))`,
    written with structural fuel (`l.length` always suffices for `n > 0`). -/
def batchesOfLoop (n : Nat) : Nat → List α → List (List α)
  | 0, _ => []
  | _ + 1, [] => []
  | fuel + 1, a :: as => (a :: as).take n :: batchesOfLoop n fuel ((a :: as).drop n)

def batchesOf (n : Nat) (l : List α) : List (List α) :=
  batchesOfLoop n l.length l

/-- Outcome of one `generateAndStoreEmbeddings` run: the rows handed to
    `createEmbeddings`, the `onProgress` values reported, the request
    payloads sent to the embedding service, and the argument lists of the
    `createEmbeddings` store calls made. -/
structure EmbRun where
  stored : List EmbRecord
  progressEvents : List Nat
  requests : List (List (List Char))
  dbWrites : List (List EmbRecord)
  deriving DecidableEq, Repr

/-- `Math.round(num / den)` for nonnegative arguments (exact rationals model
    the JS float divide-then-round). -/
def jsRoundDiv (num den : Nat) : Nat := (2 * num + den) / (2 * den)

/-- `Promise.all(parallelBatches.map(fetchEmbeddingBatch))`: all requests of a
    group are issued together and the results keep batch order; with the gate
    and service fixed for the run, sequential traversal in batch order is
    observationally equivalent. -/
def processGroupFetch (env : EmbEnv) :
    List (List DChunk) → Except PipeErr (List (List DChunk × List (List Int)))
  | [] => .ok []
  | b :: bs =>
    match fetchEmbeddingBatch env b with
    | .error e => .error e
    | .ok r =>
      match processGroupFetch env bs with
      | .error e => .error e
      | .ok rs => .ok (r :: rs)

/-- The `for (i = 0; i < batches.length; i += PARALLEL_EMBEDDING_REQUESTS)`
    loop: accumulate results, report progress after each group, record the
    request payloads. -/
def processGroups (env : EmbEnv) (total : Nat) :
    List (List (List DChunk)) → Nat →
    Except PipeErr (List (List DChunk × List (List Int)) × List Nat × List (List (List Char)))
  | [], _ => .ok ([], [], [])
  | g :: gs, completed =>
    match processGroupFetch env g with
    | .error e => .error e
    | .ok rs =>
      match processGroups env total gs (completed + rs.length) with
      | .error e => .error e
      | .ok (rest, progs, reqs) =>
        .ok (rs ++ rest,
          jsRoundDiv ((completed + rs.length) * 80) total :: progs,
          g.map (fun b => b.map (fun c => c.content)) ++ reqs)

/-- `allResults.flatMap((result) => result.batch.map((chunk, idx) => ...))`:
    the rows handed to `createEmbeddings`. -/
def storedOf (allResults : List (List DChunk × List (List Int))) : List EmbRecord :=
  (allResults.map (fun r =>
    mapIdxFrom 0
      (fun idx c =>
        { chunkId := c.id, documentId := c.documentId, caseId := c.caseId,
          embedding := r.2.getD idx [] : EmbRecord })
      r.1)).flatten

/-- `generateAndStoreEmbeddings(chunks, onProgress)`. -/
def generateAndStoreEmbeddings (env : EmbEnv) (chunks : List DChunk) :
    Except PipeErr EmbRun :=
  if chunks.length = 0 then
    .ok { stored := [], progressEvents := [100], requests := [], dbWrites := [] }
  else
    match processGroups env (batchesOf EMBEDDING_BATCH_SIZE chunks).length
        (batchesOf PARALLEL_EMBEDDING_REQUESTS (batchesOf EMBEDDING_BATCH_SIZE chunks)) 0 with
    | .error e => .error e
    | .ok (allResults, progs, reqs) =>
      .ok { stored := storedOf allResults, progressEvents := progs ++ [100],
            requests := reqs, dbWrites := [storedOf allResults] }

/-- The concatenation, in request order, of the vector lists returned by the
    embedding service for each batch. -/
def returnedVectors (env : EmbEnv) (chunks : List DChunk) : List (List Int) :=
  ((batchesOf EMBEDDING_BATCH_SIZE chunks).map
    (fun b =>
      match env.svc (b.map (fun c => c.content)) with
      | .ok vs => vs
      | .error _ => [])).flatten

theorem batchesOfLoop_flatten {α : Type} (n : Nat) (hn : 0 < n) :
    ∀ (fuel : Nat) (l : List α), l.length ≤ fuel →
      (batchesOfLoop n fuel l).flatten = l := by
  intro fuel
  induction fuel with
  | zero =>
      intro l hl
      have : l = [] := List.eq_nil_of_length_eq_zero (by omega)
      subst this; rfl
  | succ m ih =>
      intro l hl
      cases l with
      | nil => rfl
      | cons a as =>
          rw [batchesOfLoop, List.flatten_cons, ih ((a :: as).drop n)
            (by simp only [List.length_drop]; simp at hl ⊢; omega)]
          exact List.take_append_drop n (a :: as)

theorem batchesOf_flatten {α : Type} (n : Nat) (hn : 0 < n) (l : List α) :
    (batchesOf n l).flatten = l :=
  batchesOfLoop_flatten n hn l.length l le_rfl

theorem batchesOfLoop_mem {α : Type} (n : Nat) (hn : 0 < n) :
    ∀ (fuel : Nat) (l : List α), ∀ b ∈ batchesOfLoop n fuel l,
      b ≠ [] ∧ b.length ≤ n := by
  intro fuel
  induction fuel with
  | zero => intro l b hb; simp [batchesOfLoop] at hb
  | succ m ih =>
      intro l b hb
      cases l with
      | nil => simp [batchesOfLoop] at hb
      | cons a as =>
          rw [batchesOfLoop] at hb
          rcases List.mem_cons.mp hb with h1 | h2
          · subst h1
            refine ⟨?_, by simp⟩
            cases n with
            | zero => omega
            | succ k => simp [List.take_succ_cons]
          · exact ih ((a :: as).drop n) b h2

theorem batchesOf_mem {α : Type} (n : Nat) (hn : 0 < n) (l : List α) :
    ∀ b ∈ batchesOf n l, b ≠ [] ∧ b.length ≤ n :=
  batchesOfLoop_mem n hn l.length l

theorem processGroupFetch_ok (env : EmbEnv)
    (vecOf : List (List Char) → List (List Int))
    (hg : env.gate.allowed = true)
    (hsvc : ∀ ts, env.svc ts = .ok (vecOf ts)) :
    ∀ g, processGroupFetch env g =
      .ok (g.map (fun b => (b, vecOf (b.map (fun c => c.content))))) := by
  intro g
  induction g with
  | nil => rfl
  | cons b bs ih =>
      rw [processGroupFetch, fetchEmbeddingBatch, checkLimitsOrThrow, hg]
      simp only [if_true, hsvc, ih, List.map_cons]

theorem processGroups_ok (env : EmbEnv) (total : Nat)
    (vecOf : List (List Char) → List (List Int))
    (hg : env.gate.allowed = true)
    (hsvc : ∀ ts, env.svc ts = .ok (vecOf ts)) :
    ∀ (gs : List (List (List DChunk))) (completed : Nat),
      ∃ progs reqs, processGroups env total gs completed =
        .ok (gs.flatten.map (fun b => (b, vecOf (b.map (fun c => c.content)))),
          progs, reqs) := by
  intro gs
  induction gs with
  | nil => intro completed; exact ⟨[], [], by simp [processGroups]⟩
  | cons g gs ih =>
      intro completed
      obtain ⟨progs, reqs, hrec⟩ :=
        ih (completed +
          (g.map (fun b => (b, vecOf (b.map (fun c => c.content))))).length)
      refine ⟨jsRoundDiv ((completed +
          (g.map (fun b => (b, vecOf (b.map (fun c => c.content))))).length) * 80)
            total :: progs,
        g.map (fun b => b.map (fun c => c.content)) ++ reqs, ?_⟩
      rw [processGroups, processGroupFetch_ok env vecOf hg hsvc g]
      dsimp only
      rw [hrec]
      dsimp only
      simp [List.flatten_cons]

theorem mapIdxFrom_map_chunkId (vs : List (List Int)) :
    ∀ (b : List DChunk) (i : Nat),
      ((mapIdxFrom i
        (fun idx c =>
          ({ chunkId := c.id, documentId := c.documentId, caseId := c.caseId,
             embedding := vs.getD idx [] } : EmbRecord)) b).map
        (fun e => e.chunkId)) = b.map (fun c => c.id)
  | [], _ => rfl
  | a :: as, i => by
      simp only [mapIdxFrom, List.map_cons]
      rw [mapIdxFrom_map_chunkId vs as (i + 1)]

theorem mapIdxFrom_map_embedding :
    ∀ (b : List DChunk) (vs : List (List Int)) (j : Nat),
      vs.length = j + b.length →
      ((mapIdxFrom j
        (fun idx c =>
          ({ chunkId := c.id, documentId := c.documentId, caseId := c.caseId,
             embedding := vs.getD idx [] } : EmbRecord)) b).map
        (fun e => e.embedding)) = vs.drop j
  | [], vs, j => by
      intro h
      simp only [List.length_nil] at h
      simp [mapIdxFrom, List.drop_eq_nil_of_le (by omega : vs.length ≤ j)]
  | a :: as, vs, j => by
      intro h
      have hj : j < vs.length := by simp at h; omega
      simp only [mapIdxFrom, List.map_cons]
      rw [mapIdxFrom_map_embedding as vs (j + 1) (by simp at h ⊢; omega)]
      rw [List.getD_eq_getElem vs [] hj, List.drop_eq_getElem_cons hj]

/-- C2: with the gate open and an order/length-preserving embedding service,
    `generateAndStoreEmbeddings` partitions the chunks into order-preserving
    batches of at most `EMBEDDING_BATCH_SIZE = 50`, and the stored records
    carry, position by position, the chunk ids in input order together with
    the returned vectors in request order. -/
theorem embeddings_preserve_order (env : EmbEnv) (chunks : List DChunk)
    (run : EmbRun) (vecOf : List (List Char) → List (List Int))
    (hg : env.gate.allowed = true)
    (hsvc : ∀ ts, env.svc ts = .ok (vecOf ts))
    (hlen : ∀ ts, (vecOf ts).length = ts.length)
    (hrun : generateAndStoreEmbeddings env chunks = .ok run) :
    run.stored.map (fun e => e.chunkId) = chunks.map (fun c => c.id) ∧
    run.stored.map (fun e => e.embedding) = returnedVectors env chunks ∧
    (batchesOf EMBEDDING_BATCH_SIZE chunks).flatten = chunks ∧
    (∀ b ∈ batchesOf EMBEDDING_BATCH_SIZE chunks,
      b ≠ [] ∧ b.length ≤ EMBEDDING_BATCH_SIZE) := by
  have h50 : (0 : Nat) < EMBEDDING_BATCH_SIZE := by decide
  have h3 : (0 : Nat) < PARALLEL_EMBEDDING_REQUESTS := by decide
  have hflat := batchesOf_flatten EMBEDDING_BATCH_SIZE h50 chunks
  have hmem := batchesOf_mem EMBEDDING_BATCH_SIZE h50 chunks
  have hret : returnedVectors env chunks =
      ((batchesOf EMBEDDING_BATCH_SIZE chunks).map
        (fun b => vecOf (b.map (fun c => c.content)))).flatten := by
    unfold returnedVectors
    congr 1
    exact List.map_congr_left (fun b _ => by rw [hsvc])
  rw [generateAndStoreEmbeddings] at hrun
  by_cases hz : chunks.length = 0
  · have hnil : chunks = [] := List.eq_nil_of_length_eq_zero hz
    subst hnil
    simp only [List.length_nil, if_true] at hrun
    injection hrun with hr
    subst hr
    refine ⟨rfl, ?_, hflat, hmem⟩
    rw [hret]; rfl
  · rw [if_neg hz] at hrun
    obtain ⟨progs, reqs, hpg⟩ :=
      processGroups_ok env (batchesOf EMBEDDING_BATCH_SIZE chunks).length vecOf hg hsvc
        (batchesOf PARALLEL_EMBEDDING_REQUESTS (batchesOf EMBEDDING_BATCH_SIZE chunks)) 0
    rw [batchesOf_flatten PARALLEL_EMBEDDING_REQUESTS h3] at hpg
    rw [hpg] at hrun
    dsimp only at hrun
    injection hrun with hr
    subst hr
    refine ⟨?_, ?_, hflat, hmem⟩
    · show (storedOf _).map _ = _
      rw [storedOf, List.map_flatten, List.map_map, List.map_map]
      conv_rhs => rw [← hflat, List.map_flatten]
      congr 1
      refine List.map_congr_left (fun b _ => ?_)
      simp only [Function.comp]
      exact mapIdxFrom_map_chunkId _ b 0
    · show (storedOf _).map _ = _
      rw [storedOf, hret, List.map_flatten, List.map_map, List.map_map]
      congr 1
      refine List.map_congr_left (fun b _ => ?_)
      simp only [Function.comp]
      rw [mapIdxFrom_map_embedding b _ 0 (by rw [hlen]; simp), List.drop_zero]

/-- Witness inputs for C2: an order-preserving stub service and two chunks. -/
def envW : EmbEnv :=
  { gate := { allowed := true, reason := none },
    svc := fun ts => .ok (ts.map (fun _ => [0])) }

def chunksW : List DChunk := [⟨1, 7, 9, ['a']⟩, ⟨2, 7, 9, ['b']⟩]

def runW : EmbRun :=
  { stored := [⟨1, 7, 9, [0]⟩, ⟨2, 7, 9, [0]⟩],
    progressEvents := [80, 100],
    requests := [[['a'], ['b']]],
    dbWrites := [[⟨1, 7, 9, [0]⟩, ⟨2, 7, 9, [0]⟩]] }

/-- Witness for C2 at a concrete service and two chunks. -/
theorem embeddings_preserve_order_witness :
    (envW.gate.allowed = true ∧
      generateAndStoreEmbeddings envW chunksW = .ok runW) ∧
    (runW.stored.map (fun e => e.chunkId) = chunksW.map (fun c => c.id) ∧
      runW.stored.map (fun e => e.embedding) = returnedVectors envW chunksW ∧
      (batchesOf EMBEDDING_BATCH_SIZE chunksW).flatten = chunksW ∧
      (∀ b ∈ batchesOf EMBEDDING_BATCH_SIZE chunksW,
        b ≠ [] ∧ b.length ≤ EMBEDDING_BATCH_SIZE)) :=
  ⟨⟨rfl, by rfl⟩,
   embeddings_preserve_order envW chunksW runW (fun ts => ts.map (fun _ => [0]))
     rfl (fun ts => rfl) (fun ts => by simp) (by rfl)⟩

/-- C10: called on an empty chunk list, `generateAndStoreEmbeddings` makes no
    embedding request, performs no store write, and its only observable
    effect is reporting progress `100`. -/
theorem embeddings_empty_noop (env : EmbEnv) :
    generateAndStoreEmbeddings env [] =
      .ok { stored := [], progressEvents := [100], requests := [], dbWrites := [] } := rfl

/-! ### OCR polling (document-pipeline.ts, extractTextViaOCR) -/

/-- One `/api/ocr/status` response.  `status.status || ""` is modelled by
    letting `status` be a plain string with `""` for absent;
    `status.chunksCompleted ?? status.chunks_completed ?? 0` by an
    `Option Int` read with `getD 0` (similarly `chunksProcessing`). -/
structure OCRStatusMsg where
  status : String
  text : Option (List Char)
  errorMsg : Option String
  pageCount : Option Nat
  chunksCompleted : Option Int
  chunksProcessing : Option Int
  deriving DecidableEq, Repr

inductive OCRPollOutcome where
  | completed (text : List Char) (pageCount : Option Nat) (polls : Nat)
  | failed (msg : String) (polls : Nat)
  | stuck (polls : Nat)
  | timedOut (polls : Nat)
  deriving DecidableEq, Repr

/-- Number of poll iterations that fit in the 5-minute ceiling. -/
def POLL_BUDGET : Nat := OCR_MAX_WAIT / OCR_POLL_INTERVAL

/-- The `while (Date.now() - startTime < OCR_MAX_WAIT)` polling loop.
    Each iteration is one `sleep(OCR_POLL_INTERVAL)` followed by one status
    fetch, so after `k` polls the elapsed time is `k * OCR_POLL_INTERVAL`
    (fetch latency idealised to zero) and the while guard is
    `k < POLL_BUDGET`, i.e. `0 < countdown` for `countdown = POLL_BUDGET - k`.
    `statusAt k` is the response of the `(k+1)`-th poll.  State mirrors the
    JS locals `lastStatus`, `lastChunksCompleted` (initially `-1`) and
    `stuckCount`; each outcome records how many polls were made. -/
def ocrPollLoop (statusAt : Nat → OCRStatusMsg) :
    Nat → Nat → String → Int → Nat → OCRPollOutcome
  | 0, k, _, _, _ => .timedOut k
  | countdown + 1, k, lastStatus, lastCC, stuckCount =>
    if (statusAt k).status = "completed" then
      .completed ((statusAt k).text.getD []) (statusAt k).pageCount (k + 1)
    else if (statusAt k).status = "failed" then
      .failed ((statusAt k).errorMsg.getD "OCR processing failed") (k + 1)
    else if (statusAt k).status ≠ lastStatus
        ∨ (statusAt k).chunksCompleted.getD 0 ≠ lastCC
        ∨ (statusAt k).chunksProcessing.getD 0 > 0 then
      ocrPollLoop statusAt countdown (k + 1) (statusAt k).status
        ((statusAt k).chunksCompleted.getD 0) 0
    else if stuckCount + 1 ≥ MAX_STUCK_POLLS then .stuck (k + 1)
    else ocrPollLoop statusAt countdown (k + 1) lastStatus lastCC (stuckCount + 1)

/-- The poll loop as entered by `extractTextViaOCR`:
    `lastStatus = ""`, `lastChunksCompleted = -1`, `stuckCount = 0`. -/
def ocrPollRun (statusAt : Nat → OCRStatusMsg) : OCRPollOutcome :=
  ocrPollLoop statusAt POLL_BUDGET 0 "" (-1) 0

/-- A status response that never changes but always reports one chunk
    in flight. -/
def stalledBusyStatus : OCRStatusMsg :=
  { status := "processing", text := none, errorMsg := none, pageCount := none,
    chunksCompleted := some 0, chunksProcessing := some 1 }

/-- C6 counterexample: a service whose status and progress indicators
    (chunks completed / chunks processing) never change across all 150 polls
    — far more than 30 consecutive unchanged polls — yet the loop never
    aborts with the stuck error: because `chunksProcessing > 0` counts as
    progress, it polls to the 5-minute ceiling and times out instead. -/
theorem ocr_stuck_detection_cex :
    (∀ k : Nat, (fun (_ : Nat) => stalledBusyStatus) k = stalledBusyStatus) ∧
    ocrPollRun (fun (_ : Nat) => stalledBusyStatus) = .timedOut POLL_BUDGET ∧
    POLL_BUDGET = 150 := by
  refine ⟨fun k => rfl, by rfl, by rfl⟩

theorem ocrPollLoop_stuck_run (statusAt : Nat → OCRStatusMsg) (s : OCRStatusMsg)
    (hconst : ∀ k, statusAt k = s)
    (hnd : s.status ≠ "completed") (hnf : s.status ≠ "failed")
    (hidle : s.chunksProcessing.getD 0 ≤ 0) :
    ∀ (m countdown k stuckCount : Nat), 1 ≤ m →
      stuckCount + m = MAX_STUCK_POLLS → m ≤ countdown →
      ocrPollLoop statusAt countdown k s.status (s.chunksCompleted.getD 0) stuckCount
        = .stuck (k + m) := by
  intro m
  induction m with
  | zero => intro countdown k stuckCount h1; omega
  | succ n ih =>
      intro countdown k stuckCount h1 h2 h3
      obtain ⟨c, rfl⟩ : ∃ c, countdown = c + 1 := ⟨countdown - 1, by omega⟩
      rw [ocrPollLoop, hconst k]
      rw [if_neg hnd, if_neg hnf]
      rw [if_neg (by push_neg; exact ⟨rfl, rfl, by omega⟩)]
      by_cases hn : n = 0
      · subst hn
        rw [if_pos (by unfold MAX_STUCK_POLLS at h2 ⊢; omega)]
      · rw [if_neg (by unfold MAX_STUCK_POLLS at h2 ⊢; omega)]
        rw [ih c (k + 1) (stuckCount + 1) (by omega) (by omega) (by omega)]
        congr 1
        omega

/-- C6 (amended): a service whose response is constant from the start — so
    neither the coarse status nor the chunks-completed count ever changes —
    and which reports no chunk currently processing, makes the loop abort
    with the stuck error on poll 31 (after 30 consecutive unchanged polls,
    the first poll counting as progress against the initial sentinel state),
    at elapsed time 62s, before the 5-minute ceiling. -/
theorem ocr_stuck_detection (statusAt : Nat → OCRStatusMsg) (s : OCRStatusMsg)
    (hconst : ∀ k, statusAt k = s)
    (hnd : s.status ≠ "completed") (hnf : s.status ≠ "failed")
    (hidle : s.chunksProcessing.getD 0 ≤ 0)
    (hfirst : s.status ≠ "" ∨ s.chunksCompleted.getD 0 ≠ -1) :
    ocrPollRun statusAt = .stuck (MAX_STUCK_POLLS + 1) ∧
    (MAX_STUCK_POLLS + 1) * OCR_POLL_INTERVAL < OCR_MAX_WAIT := by
  refine ⟨?_, by decide⟩
  unfold ocrPollRun POLL_BUDGET OCR_MAX_WAIT OCR_POLL_INTERVAL
  norm_num
  rw [ocrPollLoop, hconst 0]
  rw [if_neg hnd, if_neg hnf]
  rw [if_pos (by
    rcases hfirst with h | h
    · exact Or.inl h
    · exact Or.inr (Or.inl h))]
  rw [ocrPollLoop_stuck_run statusAt s hconst hnd hnf hidle
    MAX_STUCK_POLLS 149 1 0 (by decide) rfl (by decide), Nat.add_comm]

/-- Witness for C6 at a concrete constant service. -/
theorem ocr_stuck_detection_witness :
    ((∀ k, (fun (_ : Nat) =>
        ({ status := "processing", text := none, errorMsg := none,
           pageCount := none, chunksCompleted := some 0,
           chunksProcessing := some 0 } : OCRStatusMsg)) k =
        ({ status := "processing", text := none, errorMsg := none,
           pageCount := none, chunksCompleted := some 0,
           chunksProcessing := some 0 } : OCRStatusMsg)) ∧
      ({ status := "processing", text := none, errorMsg := none,
         pageCount := none, chunksCompleted := some 0,
         chunksProcessing := some 0 } : OCRStatusMsg).status ≠ "completed") ∧
    (ocrPollRun (fun _ =>
        { status := "processing", text := none, errorMsg := none,
          pageCount := none, chunksCompleted := some 0,
          chunksProcessing := some 0 }) = .stuck (MAX_STUCK_POLLS + 1) ∧
      (MAX_STUCK_POLLS + 1) * OCR_POLL_INTERVAL < OCR_MAX_WAIT) :=
  ⟨⟨fun k => rfl, by decide⟩,
   ocr_stuck_detection
     (fun _ =>
       { status := "processing", text := none, errorMsg := none,
         pageCount := none, chunksCompleted := some 0,
         chunksProcessing := some 0 })
     { status := "processing", text := none, errorMsg := none,
       pageCount := none, chunksCompleted := some 0,
       chunksProcessing := some 0 }
     (fun k => rfl) (by decide) (by decide) (by decide) (by decide)⟩

/-! ### processDocument (document-pipeline.ts) -/

/-- The three extraction strategies of `getFileTypeCategory`. -/
inductive FileCat where
  | text
  | docx
  | ocr
  deriving DecidableEq, Repr

/-- The remote calls a pipeline run can attempt (metered calls only). -/
inductive ReqEvent where
  | ocrSubmit
  | embedBatch (texts : List (List Char))
  deriving DecidableEq, Repr

/-- The environment of one `processDocument` run: the file (category plus the
    text the chosen extractor would produce), the OCR service, the usage gate
    and the embedding service — all external collaborators. -/
structure PipeEnv where
  fileCat : FileCat
  fileText : List Char
  docxResult : Except String (List Char)
  ocrSubmit : Except String Unit
  ocrStatusAt : Nat → OCRStatusMsg
  gate : UsageGate
  embSvc : List (List Char) → Except String (List (List Int))

/-- A `ProcessingJob` row (id/caseId/documentId and timestamps elided;
    `completedAt` records whether the timestamp was set). -/
structure Job where
  jobType : String
  status : String
  completedAt : Bool
  deriving DecidableEq, Repr

/-- The persisted state observable after a `processDocument` run: the
    document's status / error message / extracted text, the job rows, the
    chunk and embedding rows written, and the remote requests attempted.
    (The intermediate `onProgress` callbacks are modelled in
    `generateAndStoreEmbeddings` where a claim needs them.) -/
structure PipeState where
  docStatus : String
  docError : Option String
  docText : Option (List Char)
  jobs : List Job
  chunkRows : List ChunkRecord
  embRows : List EmbRecord
  requests : List ReqEvent
  deriving DecidableEq, Repr

/-- The `message` of each thrown error, as attached to the document by the
    catch block (`error instanceof Error ? error.message : ...`). -/
def errMessage : PipeErr → String
  | .demoLimit r => "Demo limit exceeded: " ++ r
  | .docxFail m => "Failed to extract text from DOCX: " ++ m
  | .ocrSubmitFail m => m
  | .ocrFailed m => m
  | .ocrStuck =>
      "OCR job appears stuck - the service may be unable to access the document. Please try again."
  | .ocrTimeout => "OCR timed out"
  | .embedFail m => m

/-- `extractTextViaOCR(file)`: gate check, submit, poll.  The second
    component lists the remote requests attempted. -/
def extractTextViaOCR (env : PipeEnv) : Except PipeErr (List Char) × List ReqEvent :=
  match checkLimitsOrThrow env.gate with
  | .error e => (.error e, [])
  | .ok _ =>
    match env.ocrSubmit with
    | .error e => (.error (.ocrSubmitFail e), [.ocrSubmit])
    | .ok _ =>
      match ocrPollRun env.ocrStatusAt with
      | .completed txt _ _ => (.ok txt, [.ocrSubmit])
      | .failed msg _ => (.error (.ocrFailed msg), [.ocrSubmit])
      | .stuck _ => (.error .ocrStuck, [.ocrSubmit])
      | .timedOut _ => (.error .ocrTimeout, [.ocrSubmit])

/-- `extractText(file)`: dispatch on the file category. -/
def extractText (env : PipeEnv) : Except PipeErr (List Char) × List ReqEvent :=
  match env.fileCat with
  | .text => (.ok env.fileText, [])
  | .docx =>
    match env.docxResult with
    | .ok txt => (.ok txt, [])
    | .error m => (.error (.docxFail m), [])
  | .ocr => extractTextViaOCR env

/-- The `DocumentChunk` rows returned by `createChunks` (UUIDs abstracted as
    positions; `documentId`/`caseId` constants abstracted as `0`). -/
def dchunksOf (t : List Char) : List DChunk :=
  mapIdxFrom 0 (fun i c => ⟨i, 0, 0, c.content⟩) (chunkText t)

/-- `processDocument`: extraction, chunking, embedding, with the catch block
    setting the document to `error` with the thrown message.  The returned
    `PipeState` is the final persisted state; the `Option PipeErr` is the
    re-raised error. -/
def processDocument (env : PipeEnv) : PipeState × Option PipeErr :=
  match extractText env with
  | (.error e, reqs) =>
      ({ docStatus := "error", docError := some (errMessage e), docText := none,
         jobs := [{ jobType := "ocr", status := "processing", completedAt := false }],
         chunkRows := [], embRows := [], requests := reqs }, some e)
  | (.ok txt, reqs) =>
      match generateAndStoreEmbeddings { gate := env.gate, svc := env.embSvc }
          (dchunksOf txt) with
      | .error e =>
          ({ docStatus := "error", docError := some (errMessage e),
             docText := some txt,
             jobs := [{ jobType := "ocr", status := "completed", completedAt := true },
               { jobType := "chunking", status := "completed", completedAt := true },
               { jobType := "embedding", status := "processing", completedAt := false }],
             chunkRows := chunkRecords txt, embRows := [], requests := reqs },
           some e)
      | .ok run =>
          ({ docStatus := "completed", docError := none, docText := some txt,
             jobs := [{ jobType := "ocr", status := "completed", completedAt := true },
               { jobType := "chunking", status := "completed", completedAt := true },
               { jobType := "embedding", status := "completed", completedAt := true }],
             chunkRows := chunkRecords txt, embRows := run.stored,
             requests := reqs ++ run.requests.map ReqEvent.embedBatch }, none)

/-- A failing embedding run with the gate closed: the very first
    `fetchEmbeddingBatch` throws before any request. -/
theorem gase_denied (env : EmbEnv) (chunks : List DChunk)
    (hdeny : env.gate.allowed = false) (hne : chunks ≠ []) :
    generateAndStoreEmbeddings env chunks =
      .error (.demoLimit (env.gate.reason.getD "limit_exceeded")) := by
  obtain ⟨a, as, rfl⟩ : ∃ a as, chunks = a :: as := by
    cases chunks with
    | nil => exact absurd rfl hne
    | cons a as => exact ⟨a, as, rfl⟩
  rw [generateAndStoreEmbeddings, if_neg (by simp)]
  simp only [batchesOf, List.length_cons, batchesOfLoop, List.take_succ_cons,
    processGroups, processGroupFetch, fetchEmbeddingBatch, checkLimitsOrThrow,
    hdeny, Bool.false_eq_true, if_false]

/-- C7 (amended): whenever `processDocument` re-raises a stage error, the
    persisted document has already been moved to status `error` carrying the
    error's message; the `ProcessingJob` row of the failing stage, however,
    is not updated and remains in status `processing`. -/
theorem stage_error_updates_document (env : PipeEnv) (st : PipeState)
    (e : PipeErr) (h : processDocument env = (st, some e)) :
    st.docStatus = "error" ∧
    st.docError = some (errMessage e) ∧
    (st.jobs.getLast?).map (fun j => j.status) = some "processing" := by
  unfold processDocument at h
  split at h
  · rename_i e2 reqs heq
    have h1 := congrArg Prod.fst h
    have h2 := congrArg Prod.snd h
    dsimp at h1 h2
    injection h2 with h3
    subst h3
    subst h1
    exact ⟨rfl, rfl, rfl⟩
  · rename_i txt reqs heq
    split at h
    · rename_i e2 hemb
      have h1 := congrArg Prod.fst h
      have h2 := congrArg Prod.snd h
      dsimp at h1 h2
      injection h2 with h3
      subst h3
      subst h1
      exact ⟨rfl, rfl, rfl⟩
    · rename_i run hemb
      have h2 := congrArg Prod.snd h
      dsimp at h2
      exact absurd h2 (by simp)

/-- C7 counterexample environment: a DOCX whose extraction fails. -/
def envDocxFail : PipeEnv :=
  { fileCat := .docx, fileText := [], docxResult := .error "boom",
    ocrSubmit := .ok (), ocrStatusAt := fun _ => stalledBusyStatus,
    gate := { allowed := true, reason := none },
    embSvc := fun _ => .ok [] }

/-- C7 counterexample: on a failing DOCX extraction the error is re-raised
    and the document is marked `error`, but the `ProcessingJob` created for
    the failing extraction stage is left in status `processing` — it is not
    updated to `completed` or `failed`, contradicting the claim that the
    job status of the failing stage is updated before the re-raise. -/
theorem stage_error_updates_document_cex :
    (processDocument envDocxFail).2 = some (.docxFail "boom") ∧
    (processDocument envDocxFail).1.docStatus = "error" ∧
    (processDocument envDocxFail).1.jobs.map (fun j => (j.jobType, j.status))
      = [("ocr", "processing")] :=
  ⟨rfl, rfl, rfl⟩

/-- Witness for C7 at the same concrete environment. -/
theorem stage_error_updates_document_witness :
    (processDocument envDocxFail =
      ((processDocument envDocxFail).1, some (.docxFail "boom"))) ∧
    ((processDocument envDocxFail).1.docStatus = "error" ∧
      (processDocument envDocxFail).1.docError
        = some (errMessage (.docxFail "boom")) ∧
      ((processDocument envDocxFail).1.jobs.getLast?).map (fun j => j.status)
        = some "processing") :=
  ⟨rfl,
   stage_error_updates_document envDocxFail (processDocument envDocxFail).1
     (.docxFail "boom") rfl⟩

/-- C3 counterexample environment: an empty plain-text file with the usage
    gate closed. -/
def envDenied : PipeEnv :=
  { fileCat := .text, fileText := [], docxResult := .ok [],
    ocrSubmit := .ok (), ocrStatusAt := fun _ => stalledBusyStatus,
    gate := { allowed := false, reason := some "tokens_exhausted" },
    embSvc := fun _ => .ok [] }

/-- C3 counterexample: with the gate returning `allowed: false`, a run over
    an empty text file attempts no remote call — but it also raises no
    `DemoLimitExceededError` at all: the document completes normally, because
    the gate is only consulted at the metered call sites and this run reaches
    none. -/
theorem quota_gate_denial_cex :
    envDenied.gate.allowed = false ∧
    (processDocument envDenied).2 = none ∧
    (processDocument envDenied).1.requests = [] ∧
    (processDocument envDenied).1.docStatus = "completed" :=
  ⟨rfl, rfl, rfl, rfl⟩

/-- C3 (amended): when the gate returns `allowed: false`, no OCR submission
    and no embedding request is attempted in any run, and whenever the run
    reaches a metered call site — the OCR path, or the embedding stage with
    at least one chunk — it aborts with `DemoLimitExceededError`; a run that
    needs no metered call (local extraction producing no chunks) completes
    without error. -/
theorem quota_gate_denial (env : PipeEnv) (hdeny : env.gate.allowed = false) :
    (processDocument env).1.requests = [] ∧
    (env.fileCat = .ocr →
      (processDocument env).2 =
        some (.demoLimit (env.gate.reason.getD "limit_exceeded"))) ∧
    (∀ txt, (extractText env).1 = .ok txt → chunkText txt ≠ [] →
      (processDocument env).2 =
        some (.demoLimit (env.gate.reason.getD "limit_exceeded"))) := by
  have hocr : env.fileCat = .ocr →
      extractText env =
        (.error (.demoLimit (env.gate.reason.getD "limit_exceeded")), []) := by
    intro hcat
    unfold extractText
    rw [hcat]
    unfold extractTextViaOCR checkLimitsOrThrow
    rw [hdeny]
    rfl
  have hchunks : ∀ txt : List Char, chunkText txt ≠ [] → dchunksOf txt ≠ [] := by
    intro txt hne hcon
    have := congrArg List.length hcon
    rw [dchunksOf, mapIdxFrom_length] at this
    exact hne (List.eq_nil_of_length_eq_zero this)
  unfold processDocument
  cases hx : extractText env with
  | mk res reqs =>
    have hreqs : reqs = [] := by
      cases hcat : env.fileCat with
      | text =>
          have : extractText env = (.ok env.fileText, []) := by
            unfold extractText; rw [hcat]
          rw [hx] at this
          exact congrArg Prod.snd this
      | docx =>
          have : (extractText env).2 = [] := by
            unfold extractText
            rw [hcat]
            cases env.docxResult <;> rfl
          rw [hx] at this
          exact this
      | ocr =>
          have := hocr hcat
          rw [hx] at this
          exact congrArg Prod.snd this
    subst hreqs
    cases res with
    | error e =>
        dsimp only
        refine ⟨rfl, ?_, ?_⟩
        · intro hcat
          have hthis := hocr hcat
          rw [hx] at hthis
          have he := congrArg Prod.fst hthis
          dsimp at he
          injection he with he2
          rw [he2]
        · intro txt htxt hne
          exact absurd htxt (by simp)
    | ok txt =>
        dsimp only
        by_cases hempty : chunkText txt = []
        · have hd : dchunksOf txt = [] := by
            rw [dchunksOf, hempty]; rfl
          rw [hd, generateAndStoreEmbeddings]
          refine ⟨by rfl, ?_, ?_⟩
          · intro hcat
            have hthis := hocr hcat
            rw [hx] at hthis
            exact absurd (congrArg Prod.fst hthis) (by simp)
          · intro txt2 htxt hne
            injection htxt with he2
            subst he2
            exact absurd hempty hne
        · rw [gase_denied { gate := env.gate, svc := env.embSvc } (dchunksOf txt)
            hdeny (hchunks txt hempty)]
          exact ⟨rfl, fun _ => rfl, fun _ _ _ => rfl⟩

/-- Witness for C3 at a concrete denied environment (OCR file category). -/
def envDeniedOcr : PipeEnv :=
  { fileCat := .ocr, fileText := [], docxResult := .ok [],
    ocrSubmit := .ok (), ocrStatusAt := fun _ => stalledBusyStatus,
    gate := { allowed := false, reason := some "tokens_exhausted" },
    embSvc := fun _ => .ok [] }

theorem quota_gate_denial_witness :
    (envDeniedOcr.gate.allowed = false) ∧
    ((processDocument envDeniedOcr).1.requests = [] ∧
      (envDeniedOcr.fileCat = .ocr →
        (processDocument envDeniedOcr).2 =
          some (.demoLimit (envDeniedOcr.gate.reason.getD "limit_exceeded"))) ∧
      (∀ txt, (extractText envDeniedOcr).1 = .ok txt → chunkText txt ≠ [] →
        (processDocument envDeniedOcr).2 =
          some (.demoLimit (envDeniedOcr.gate.reason.getD "limit_exceeded")))) :=
  ⟨rfl, quota_gate_denial envDeniedOcr rfl⟩

/-! ### Theme re-analysis staleness check
    (useThemes / useShouldAnalyzeThemes, REFRESH_THRESHOLD = 0.2) -/

/-- A `ThemeAnalysis` row (only the fields the staleness check reads). -/
structure ThemeAnalysisRec where
  documentCountAtAnalysis : Nat
  status : String
  deriving DecidableEq, Repr

/-- The JS literal `0.2`, modelled as the exact rational. -/
def REFRESH_THRESHOLD : ℚ := 1 / 5

/-- The check performed by `useShouldAnalyzeThemes(caseId, completedDocCount)`
    (the same predicate `useThemes` computes on load):
    no documents → false; no analysis yet → true; last analysis not
    `completed` → false; otherwise compare the growth rate
    `(current - previous) / previous` against the threshold.  The JS float
    divide-and-compare is modelled over exact rationals. -/
def shouldAnalyzeThemes (analysis : Option ThemeAnalysisRec)
    (completedDocCount : Nat) : Bool :=
  if completedDocCount = 0 then false
  else
    match analysis with
    | none => true
    | some a =>
      if a.status ≠ "completed" then false
      else if 0 < a.documentCountAtAnalysis
          ∧ a.documentCountAtAnalysis < completedDocCount then
        decide ((((completedDocCount : ℚ) - a.documentCountAtAnalysis)
          / a.documentCountAtAnalysis) ≥ REFRESH_THRESHOLD)
      else false

/-- Modelled from the spec's words, in integer arithmetic: suggest refresh
    exactly when the completed count grew by at least 20% relative to the
    recorded count, or when no analysis exists and at least one completed
    document is present. -/
def specShouldRefresh (analysis : Option ThemeAnalysisRec) (c : Nat) : Bool :=
  match analysis with
  | none => decide (1 ≤ c)
  | some a =>
      decide (0 < a.documentCountAtAnalysis ∧ a.documentCountAtAnalysis < c ∧
        a.documentCountAtAnalysis ≤ 5 * (c - a.documentCountAtAnalysis))

/-- C9: for analyses that are absent or completed (the only ones the claim
    speaks about), the code's refresh flag agrees exactly with the claimed
    20%-growth rule, and in particular growth from 10 to 13 suggests
    re-analysis while growth from 10 to 11 does not. -/
theorem theme_refresh_threshold (a : Option ThemeAnalysisRec) (c : Nat)
    (h : a = none ∨ ∃ r, a = some r ∧ r.status = "completed") :
    shouldAnalyzeThemes a c = specShouldRefresh a c ∧
    shouldAnalyzeThemes (some ⟨10, "completed"⟩) 13 = true ∧
    shouldAnalyzeThemes (some ⟨10, "completed"⟩) 11 = false := by
  have hsc13 : shouldAnalyzeThemes (some ⟨10, "completed"⟩) 13 = true := by
    unfold shouldAnalyzeThemes
    norm_num [REFRESH_THRESHOLD]
  have hsc11 : shouldAnalyzeThemes (some ⟨10, "completed"⟩) 11 = false := by
    unfold shouldAnalyzeThemes
    norm_num [REFRESH_THRESHOLD]
  refine ⟨?_, hsc13, hsc11⟩
  rcases h with rfl | ⟨r, rfl, hst⟩
  · unfold shouldAnalyzeThemes specShouldRefresh
    by_cases hc : c = 0
    · subst hc; simp
    · simp [hc, Nat.one_le_iff_ne_zero.mpr hc]
  · unfold shouldAnalyzeThemes specShouldRefresh
    dsimp only
    by_cases hc : c = 0
    · subst hc
      rw [if_pos rfl]
      refine (decide_eq_false ?_).symm
      rintro ⟨h1, h2, h3⟩
      omega
    · rw [if_neg hc, if_neg (by simp [hst])]
      by_cases hgrow : 0 < r.documentCountAtAnalysis
          ∧ r.documentCountAtAnalysis < c
      · rw [if_pos hgrow]
        obtain ⟨hp, hpc⟩ := hgrow
        refine decide_eq_decide.mpr ?_
        unfold REFRESH_THRESHOLD
        have hp2 : (0 : ℚ) < (r.documentCountAtAnalysis : ℚ) := by
          exact_mod_cast hp
        rw [ge_iff_le, le_div_iff₀ hp2]
        constructor
        · intro hle
          refine ⟨hp, hpc, ?_⟩
          have h5 : (r.documentCountAtAnalysis : ℚ) ≤
              5 * ((c : ℚ) - r.documentCountAtAnalysis) := by linarith
          rw [← Nat.cast_sub (le_of_lt hpc)] at h5
          exact_mod_cast h5
        · rintro ⟨-, -, hle⟩
          have h5 : (r.documentCountAtAnalysis : ℚ) ≤
              5 * (((c - r.documentCountAtAnalysis : Nat)) : ℚ) := by
            exact_mod_cast hle
          rw [Nat.cast_sub (le_of_lt hpc)] at h5
          linarith
      · rw [if_neg hgrow]
        refine (decide_eq_false ?_).symm
        rintro ⟨h1, h2, h3⟩
        exact hgrow ⟨h1, h2⟩

/-- Witness for C9 at a concrete completed analysis. -/
theorem theme_refresh_threshold_witness :
    ((some (⟨10, "completed"⟩ : ThemeAnalysisRec) = none ∨
        ∃ r, some (⟨10, "completed"⟩ : ThemeAnalysisRec) = some r ∧
          r.status = "completed")) ∧
    (shouldAnalyzeThemes (some ⟨10, "completed"⟩) 13 =
        specShouldRefresh (some ⟨10, "completed"⟩) 13 ∧
      shouldAnalyzeThemes (some ⟨10, "completed"⟩) 13 = true ∧
      shouldAnalyzeThemes (some ⟨10, "completed"⟩) 11 = false) :=
  ⟨Or.inr ⟨⟨10, "completed"⟩, rfl, rfl⟩,
   theme_refresh_threshold (some ⟨10, "completed"⟩) 13
     (Or.inr ⟨⟨10, "completed"⟩, rfl, rfl⟩)⟩

/-! ### Theme response parsing (theme-extractor.ts, parseThemeResponse)

    `JSON.parse` is a JS builtin; it is modelled below by an executable JSON
    parser over `List Char` (numbers as exact rationals, `\\u` escapes via the
    code point).  The regex fence extraction is modelled by direct searches
    with the same leftmost-match/lazy-capture semantics. -/

inductive Json where
  | null
  | bool (b : Bool)
  | num (q : ℚ)
  | str (s : List Char)
  | arr (elems : List Json)
  | obj (fields : List (List Char × Json))

def jsonSkipWs : List Char → List Char
  | [] => []
  | c :: rest =>
    if c = ' ' ∨ c = '\t' ∨ c = '\n' ∨ c = '\r' then jsonSkipWs rest else c :: rest

def hexVal (c : Char) : Option Nat :=
  if '0' ≤ c ∧ c ≤ '9' then some (c.toNat - '0'.toNat)
  else if 'a' ≤ c ∧ c ≤ 'f' then some (c.toNat - 'a'.toNat + 10)
  else if 'A' ≤ c ∧ c ≤ 'F' then some (c.toNat - 'A'.toNat + 10)
  else none

def escChar (c : Char) : Option Char :=
  if c = '"' then some '"'
  else if c = '\\' then some '\\'
  else if c = '/' then some '/'
  else if c = 'b' then some '\x08'
  else if c = 'f' then some '\x0c'
  else if c = 'n' then some '\n'
  else if c = 'r' then some '\r'
  else if c = 't' then some '\t'
  else none

/-- The body of a JSON string after the opening quote: the decoded
    characters and the remainder after the closing quote. -/
def parseStringRest : List Char → Option (List Char × List Char)
  | [] => none
  | '"' :: rest => some ([], rest)
  | '\\' :: 'u' :: a :: b :: c :: d :: rest =>
      match hexVal a, hexVal b, hexVal c, hexVal d with
      | some ha, some hb, some hc, some hd =>
          (parseStringRest rest).map
            (fun p => (Char.ofNat (((ha * 16 + hb) * 16 + hc) * 16 + hd) :: p.1, p.2))
      | _, _, _, _ => none
  | '\\' :: e :: rest =>
      match escChar e with
      | some ce => (parseStringRest rest).map (fun p => (ce :: p.1, p.2))
      | none => none
  | c :: rest =>
      if c.toNat < 32 then none
      else (parseStringRest rest).map (fun p => (c :: p.1, p.2))

def digitVal (c : Char) : Option Nat :=
  if '0' ≤ c ∧ c ≤ '9' then some (c.toNat - '0'.toNat) else none

def takeDigits : List Char → List Nat × List Char
  | [] => ([], [])
  | c :: rest =>
    match digitVal c with
    | some d =>
        match takeDigits rest with
        | (ds, r) => (d :: ds, r)
    | none => ([], c :: rest)

def digitsToNat (ds : List Nat) : Nat := ds.foldl (fun acc d => acc * 10 + d) 0

/-- A JSON number (sign, integer part without leading zeros, optional
    fraction, optional exponent), as an exact rational. -/
def parseNumber (s : List Char) : Option (ℚ × List Char) :=
  match (match s with
    | '-' :: r => (true, r)
    | _ => (false, s)) with
  | (neg, s1) =>
    match takeDigits s1 with
    | ([], _) => none
    | (ints, s2) =>
      if 1 < ints.length ∧ ints.headD 0 = 0 then none
      else
        match (match s2 with
          | '.' :: r =>
            match takeDigits r with
            | (fds, r2) => (some fds, r2)
          | _ => (none, s2)) with
        | (some [], _) => none
        | (frac, s3) =>
          match (match s3 with
            | e :: r =>
              if e = 'e' ∨ e = 'E' then
                match r with
                | '-' :: r2 =>
                    match takeDigits r2 with
                    | (eds, r3) => (some (true, eds), r3)
                | '+' :: r2 =>
                    match takeDigits r2 with
                    | (eds, r3) => (some (false, eds), r3)
                | _ =>
                    match takeDigits r with
                    | (eds, r3) => (some (false, eds), r3)
              else (none, s3)
            | [] => (none, s3)) with
          | (some (_, []), _) => none
          | (expPart, s4) =>
            let mant : ℚ :=
              match frac with
              | some fds =>
                  (digitsToNat ints : ℚ) +
                    (digitsToNat fds : ℚ) / ((10 : ℚ) ^ fds.length)
              | none => (digitsToNat ints : ℚ)
            let v0 : ℚ :=
              match expPart with
              | some (eneg, eds) =>
                  if eneg then mant / ((10 : ℚ) ^ digitsToNat eds)
                  else mant * ((10 : ℚ) ^ digitsToNat eds)
              | none => mant
            some (if neg then -v0 else v0, s4)

mutual

def parseValue : Nat → List Char → Option (Json × List Char)
  | 0, _ => none
  | fuel + 1, s =>
    match jsonSkipWs s with
    | [] => none
    | c :: rest =>
      if c = 'n' then
        match rest with
        | 'u' :: 'l' :: 'l' :: r => some (.null, r)
        | _ => none
      else if c = 't' then
        match rest with
        | 'r' :: 'u' :: 'e' :: r => some (.bool true, r)
        | _ => none
      else if c = 'f' then
        match rest with
        | 'a' :: 'l' :: 's' :: 'e' :: r => some (.bool false, r)
        | _ => none
      else if c = '"' then
        (parseStringRest rest).map (fun p => (.str p.1, p.2))
      else if c = '[' then
        match jsonSkipWs rest with
        | ']' :: r => some (.arr [], r)
        | _ => (parseElems fuel rest).map (fun p => (.arr p.1, p.2))
      else if c = '\x7b' then
        match jsonSkipWs rest with
        | '\x7d' :: r => some (.obj [], r)
        | _ => (parseMembers fuel rest).map (fun p => (.obj p.1, p.2))
      else
        (parseNumber (c :: rest)).map (fun p => (.num p.1, p.2))

def parseElems : Nat → List Char → Option (List Json × List Char)
  | 0, _ => none
  | fuel + 1, s =>
    match parseValue fuel s with
    | none => none
    | some (v, r) =>
      match jsonSkipWs r with
      | ',' :: r2 => (parseElems fuel r2).map (fun p => (v :: p.1, p.2))
      | ']' :: r2 => some ([v], r2)
      | _ => none

def parseMembers : Nat → List Char → Option (List (List Char × Json) × List Char)
  | 0, _ => none
  | fuel + 1, s =>
    match jsonSkipWs s with
    | '"' :: rest =>
      match parseStringRest rest with
      | none => none
      | some (key, r) =>
        match jsonSkipWs r with
        | ':' :: r2 =>
          match parseValue fuel r2 with
          | none => none
          | some (v, r3) =>
            match jsonSkipWs r3 with
            | ',' :: r4 => (parseMembers fuel r4).map (fun p => ((key, v) :: p.1, p.2))
            | '\x7d' :: r4 => some ([(key, v)], r4)
            | _ => none
        | _ => none
    | _ => none

end

/-- `JSON.parse`, rejecting trailing non-whitespace.  The fuel
    `2 * length + 4` dominates the recursion depth, every recursive call
    being separated by at least one consumed character. -/
def jsonParse (s : List Char) : Option Json :=
  match parseValue (2 * s.length + 4) s with
  | some (v, rest) => if jsonSkipWs rest = [] then some v else none
  | none => none

/-- Leftmost index where `pat` occurs in `s` (`None` when absent). -/
def findPat (pat s : List Char) : Option Nat :=
  (List.range (s.length + 1)).find? (fun i => pat.isPrefixOf (s.drop i))

/-- Leftmost match of the regex `tag\n?([\s\S]*?)\n?```/` (` = backtick):
    after the literal `tag` and a greedily consumed optional newline, the lazy
    capture ends at the earliest closing fence, preferring to hand a
    preceding newline to the `\n?` before the fence.  Returns
    (full match, capture). -/
def fenceMatch (tag : List Char) (s : List Char) : Option (List Char × List Char) :=
  (List.range (s.length + 1)).findSome? (fun i =>
    if tag.isPrefixOf (s.drop i) then
      match (match (s.drop (i + tag.length)) with
        | '\n' :: _ => 1
        | _ => 0) with
      | skip =>
        match findPat ("```".toList) ((s.drop (i + tag.length)).drop skip) with
        | none => none
        | some j =>
          some ((s.drop i).take (tag.length + skip + j + 3),
            ((s.drop (i + tag.length)).drop skip).take
              (if 1 ≤ j ∧ ((s.drop (i + tag.length)).drop skip).getD (j - 1) ' ' = '\n'
                then j - 1 else j))
    else none)

/-- The regex `/\x7b[\s\S]*\x7d/`: from the first opening brace, greedily to
    the last closing brace. -/
def braceMatch (s : List Char) : Option (List Char) :=
  match (List.range s.length).find? (fun i => s.getD i ' ' = '\x7b') with
  | none => none
  | some i =>
    if (i : Int) < jsLastIndexOf s '\x7d' (s.length) then
      some ((s.drop i).take ((jsLastIndexOf s '\x7d' (s.length)).toNat - i + 1))
    else none

/-- The `jsonMatch` chain of `parseThemeResponse`: a ```json fence, then a
    bare fence, then a brace-to-brace span; the second component is the
    capture group when the pattern has one. -/
def jsonMatchExtract (content : List Char) : Option (List Char × Option (List Char)) :=
  match fenceMatch ("```json".toList) content with
  | some (full, cap) => some (full, some cap)
  | none =>
    match fenceMatch ("```".toList) content with
    | some (full, cap) => some (full, some cap)
    | none =>
      match braceMatch content with
      | some full => some (full, none)
      | none => none

/-- `jsonMatch ? (jsonMatch[1] || jsonMatch[0]) : content` — note the `||`:
    an *empty* capture falls back to the full match. -/
def extractJsonStr (content : List Char) : List Char :=
  match jsonMatchExtract content with
  | some (full, some cap) => if cap ≠ [] then cap else full
  | some (full, none) => full
  | none => content

/-- JS property access `v.key`: `none` models a thrown TypeError (access on
    `null`), `some none` models `undefined`; object lookup takes the last
    duplicate key, as `JSON.parse` does. -/
def fieldAccess : Json → List Char → Option (Option Json)
  | .null, _ => none
  | .obj fields, key =>
      some ((fields.reverse.find? (fun kv => kv.1 = key)).map (fun kv => kv.2))
  | _, _ => some none

/-- JS truthiness of a possibly-undefined value. -/
def jsTruthy : Option Json → Bool
  | none => false
  | some .null => false
  | some (.bool b) => b
  | some (.num q) => decide (q ≠ 0)
  | some (.str s) => decide (s ≠ [])
  | some (.arr _) => true
  | some (.obj _) => true

/-- `v || dflt`. -/
def jsOr (v : Option Json) (dflt : Json) : Json :=
  if jsTruthy v then v.getD .null else dflt

/-- JS numeric coercion, with `none` for NaN.  String/array/object coercions
    (never produced by the prompt contract and irrelevant to the claims) are
    modelled as NaN. -/
def toNumModel : Json → Option ℚ
  | .num q => some q
  | .bool true => some 1
  | .bool false => some 0
  | .null => some 0
  | .str _ => none
  | .arr _ => none
  | .obj _ => none

/-- A theme row as built by `parseThemeResponse` (the constant fields
    `caseId`, `supportingDocIds := []`, timestamps elided; `relevanceScore`
    is `none` when the JS value would be NaN). -/
structure ThemeRec where
  title : Json
  description : Json
  relevanceScore : Option ℚ
  keyTerms : List Json

/-- A suggested-question row (the temporary `_themeTitle` carried for later
    linking; `undefined` modelled as `Json.null`). -/
structure QuestionRec where
  question : Json
  themeId : List Char
  rationale : Json
  priority : Option ℚ
  themeTitle : Json

structure ThemeParseResult where
  themes : List ThemeRec
  suggestedQuestions : List QuestionRec

/-- One `(t: LLMTheme) => ({...})` mapping step; `none` models a thrown
    TypeError (field access on `null`). -/
def mkTheme (t : Json) : Option ThemeRec :=
  match fieldAccess t ("title".toList), fieldAccess t ("description".toList),
      fieldAccess t ("relevanceScore".toList), fieldAccess t ("keyTerms".toList) with
  | some ft, some fd, some fr, some fk =>
      some { title := jsOr ft (.str ("Untitled Theme".toList)),
             description := jsOr fd (.str []),
             relevanceScore :=
               (toNumModel (jsOr fr (.num (4 / 5)))).map (fun q => min 1 (max 0 q)),
             keyTerms :=
               match fk with
               | some (.arr xs) => xs
               | _ => [] }
  | _, _, _, _ => none

/-- One `(q: LLMQuestion) => ({...})` mapping step. -/
def mkQuestion (q : Json) : Option QuestionRec :=
  match fieldAccess q ("question".toList), fieldAccess q ("rationale".toList),
      fieldAccess q ("priority".toList), fieldAccess q ("themeTitle".toList) with
  | some fq, some fr, some fp, some ft =>
      some { question := jsOr fq (.str []),
             themeId := [],
             rationale := jsOr fr (.str []),
             priority :=
               (toNumModel (jsOr fp (.num 3))).map (fun x => min 5 (max 1 x)),
             themeTitle := ft.getD .null }
  | _, _, _, _ => none

/-- `(x || []).map f` over a possibly-undefined value: a falsy value maps
    over `[]`; a truthy non-array has no `.map` and throws (`none`). -/
def mapLike : Option Json → Option (List Json)
  | v =>
    if jsTruthy v then
      match v with
      | some (.arr xs) => some xs
      | _ => none
    else some []

def traverseOpt (f : α → Option β) : List α → Option (List β)
  | [] => some []
  | a :: as =>
    match f a with
    | none => none
    | some b => (traverseOpt f as).map (fun bs => b :: bs)

/-- `parseThemeResponse(content, caseId)`: extract the JSON text (fenced or
    bare), parse it, map themes/questions with defaulting and clamping; the
    surrounding `try/catch` turns every failure into the empty result. -/
def parseThemeResponse (content : List Char) : ThemeParseResult :=
  match jsonParse (extractJsonStr content) with
  | none => ⟨[], []⟩
  | some parsed =>
    match fieldAccess parsed ("themes".toList),
        fieldAccess parsed ("suggestedQuestions".toList) with
    | some fts, some fqs =>
      match mapLike fts, mapLike fqs with
      | some ts, some qs =>
        match traverseOpt mkTheme ts, traverseOpt mkQuestion qs with
        | some themes, some questions => ⟨themes, questions⟩
        | _, _ => ⟨[], []⟩
      | _, _ => ⟨[], []⟩
    | _, _ => ⟨[], []⟩

/-- A model response wrapping the JSON in a fenced code block, the same JSON
    bare, and a non-JSON garbage response. -/
def fencedResponse : List Char :=
  ("```json\n\x7b\"themes\":[\x7b\"title\":\"Products\",\"relevanceScore\":1,\"keyTerms\":[\"a\"]\x7d],\"suggestedQuestions\":[]\x7d\n```").toList

def bareResponse : List Char :=
  ("\x7b\"themes\":[\x7b\"title\":\"Products\",\"relevanceScore\":1,\"keyTerms\":[\"a\"]\x7d],\"suggestedQuestions\":[]\x7d").toList

def garbageResponse : List Char := ("this is not JSON at all").toList

/-- C8: theme-response parsing tolerates a fenced code block and bare JSON —
    a fenced response parses to the same (non-empty) result as its bare
    payload — and any content whose extracted JSON text fails to parse yields
    `\x7bthemes: [], suggestedQuestions: []\x7d` instead of an exception
    (the function is total and hits the catch branch). -/
theorem theme_parse_tolerant (content : List Char)
    (h : jsonParse (extractJsonStr content) = none) :
    parseThemeResponse content = ⟨[], []⟩ ∧
    parseThemeResponse fencedResponse = parseThemeResponse bareResponse ∧
    (parseThemeResponse fencedResponse).themes.length = 1 := by
  refine ⟨?_, by rfl, by rfl⟩
  unfold parseThemeResponse
  rw [h]

/-- Witness for C8 at the concrete garbage response. -/
theorem theme_parse_tolerant_witness :
    jsonParse (extractJsonStr garbageResponse) = none ∧
    (parseThemeResponse garbageResponse = ⟨[], []⟩ ∧
      parseThemeResponse fencedResponse = parseThemeResponse bareResponse ∧
      (parseThemeResponse fencedResponse).themes.length = 1) :=
  ⟨rfl, theme_parse_tolerant garbageResponse rfl⟩

end Discovery
